import Mathlib

/-!
Shallow embedding of the download-completion monitor of
`src/urbanscene3d/download.py` (class `FileDownloader`): the per-tick
directory classification `get_download_status`, the progress-monitoring
loop `monitor_download_progress`, and the timeout wait
`wait_for_download_completion` (both its detailed and its simple branch).

Modelling conventions:
* Python strings (file names) are `List Char`.
* A directory view is `Option (List Entry)`: `none` models a directory for
  which `os.path.exists` is false; otherwise the entries of `os.listdir`,
  each carrying the `os.path.isfile` answer and the outcome of
  `os.path.getsize` (`Except Unit Int`, with `.error ()` modelling an
  `OSError` raised by the size read).
* Wall-clock time is `ℤ` (whole seconds; every sleep in the source is an
  integral number of seconds): `time.sleep i` advances time by exactly `i`
  seconds, and successive calls to `get_download_status` (or `os.listdir`)
  read successive elements of a snapshot stream `ℕ → Option (List Entry)`.
* The unbounded `while` loops are embedded with a fuel parameter: a result
  of `none` means the loop has not returned within that many iterations.
* Floating point display values (the `size_mb` fields, the printed MB/s
  figure) and the never-populated `file_sizes` dict are omitted; sizes stay
  integral and the speed is the exact rational (`ℚ`) bytes-per-second
  quotient.
* `KeyboardInterrupt` (the cancellation path) is an asynchronous exception
  and is not modelled.
-/

namespace Download

/-- A Python file name, as its list of characters. -/
abbrev FName := List Char

/-- The Chrome in-progress marker, the string literal `.crdownload`. -/
def crSuffix : FName := ".crdownload".toList

/-- Python `filename.endswith('.crdownload')`. -/
def endsCr (s : FName) : Bool := crSuffix.isSuffixOf s

/-- Python `filename[:-11]`: every character but the last 11 (empty when the
name has at most 11 characters). -/
def stripCr (s : FName) : FName := s.take (s.length - 11)

instance {e a : Type} [DecidableEq e] [DecidableEq a] : DecidableEq (Except e a) := fun x y =>
  match x, y with
  | .error u, .error v =>
      if h : u = v then .isTrue (by rw [h]) else .isFalse (by simp [h])
  | .ok u, .ok v =>
      if h : u = v then .isTrue (by rw [h]) else .isFalse (by simp [h])
  | .error _, .ok _ => .isFalse (fun h => Except.noConfusion h)
  | .ok _, .error _ => .isFalse (fun h => Except.noConfusion h)

/-- One `os.listdir` entry: its name, whether `os.path.isfile` holds, and
the outcome of `os.path.getsize` on it (`.error ()` = an `OSError`). -/
structure Entry where
  name : FName
  isFile : Bool
  size : Except Unit Int
deriving DecidableEq

/-- An element of `status['in_progress_files']`. -/
structure InProgressFile where
  name : FName
  temp_file : FName
  current_size : Int
deriving DecidableEq

/-- An element of `status['completed_files']`. -/
structure CompletedFile where
  name : FName
  size : Int
deriving DecidableEq

/-- The dict built by `get_download_status` (without the float `size_mb`
display fields and the never-written `file_sizes` dict). -/
structure DownloadStatus where
  active_downloads : Nat
  completed_files : List CompletedFile
  in_progress_files : List InProgressFile
  total_size : Int
deriving DecidableEq

/-- The initial `status` dict of `get_download_status`. -/
def emptyStatus : DownloadStatus :=
  { active_downloads := 0, completed_files := [], in_progress_files := [], total_size := 0 }

/-- One iteration of the `for filename in os.listdir(...)` loop of
`get_download_status`: a `.crdownload` entry is recorded in progress under
its stripped name, any other regular file is recorded completed under its
own name, anything else is skipped; a failing `os.path.getsize` raises. -/
def statusStep (st : DownloadStatus) (e : Entry) : Except Unit DownloadStatus :=
  if endsCr e.name then
    match e.size with
    | .error u => .error u
    | .ok sz =>
        .ok { st with
          in_progress_files := st.in_progress_files ++ [⟨stripCr e.name, e.name, sz⟩],
          active_downloads := st.active_downloads + 1,
          total_size := st.total_size + sz }
  else if e.isFile then
    match e.size with
    | .error u => .error u
    | .ok sz =>
        .ok { st with
          completed_files := st.completed_files ++ [⟨e.name, sz⟩],
          total_size := st.total_size + sz }
  else
    .ok st

/-- The whole entry loop of `get_download_status`, with an exception from
any iteration propagating out. -/
def statusFold : DownloadStatus → List Entry → Except Unit DownloadStatus
  | st, [] => .ok st
  | st, e :: es =>
      match statusStep st e with
      | .error u => .error u
      | .ok st2 => statusFold st2 es

/-- `FileDownloader.get_download_status`: the empty status when the
directory does not exist, otherwise the classification of its listing. -/
def get_download_status : Option (List Entry) → Except Unit DownloadStatus
  | none => .ok emptyStatus
  | some entries => statusFold emptyStatus entries

/-- A `last_sizes` dict entry: file name mapped to the pair of last sampled
size (`'size'`) and its sample time (`'time'`). -/
abbrev LastSizes := List (FName × Int × Int)

/-- Python dict read `last_sizes.get(filename)` on the association list. -/
def lookupLS : LastSizes → FName → Option (Int × Int)
  | [], _ => none
  | (k, v) :: rest, f => if k = f then some v else lookupLS rest f

/-- Python dict write `last_sizes[filename] = {...}` on the association
list: replace the binding when present, append it otherwise. -/
def setLS : LastSizes → FName → Int × Int → LastSizes
  | [], f, v => [(f, v)]
  | (k, w) :: rest, f, v => if k = f then (f, v) :: rest else (k, w) :: setLS rest f v

/-- The three per-file progress lines `monitor_download_progress` can print
for an in-progress file: a numeric speed, `Calculating speed...` (a prior
sample at a non-positive time distance), or `Starting...` (no prior
sample). -/
inductive SpeedMsg where
  | speed (bytesPerSec : ℚ)
  | calculating
  | starting
deriving DecidableEq

/-- The speed computation of `monitor_download_progress` for one
in-progress file: with a prior sample and positive elapsed time the speed
is `(current_size - last_size) / elapsed`, else a placeholder line. -/
def speedMsg (last_sizes : LastSizes) (filename : FName) (current_size : Int)
    (now : Int) : SpeedMsg :=
  match lookupLS last_sizes filename with
  | none => .starting
  | some (sz, t) =>
      if 0 < now - t then .speed (((current_size - sz : Int) : ℚ) / ((now - t : Int) : ℚ))
      else .calculating

/-- The numeric rate a progress line carries; the placeholder lines report
no throughput, a zero rate estimate. -/
def rateValue : SpeedMsg → ℚ
  | .speed q => q
  | .calculating => 0
  | .starting => 0

/-- The `last_sizes` update performed over one tick's in-progress files, in
list order (all per-file `time.time()` reads collapsed to the tick time). -/
def updateSizes (ls : LastSizes) (files : List InProgressFile) (now : Int) : LastSizes :=
  files.foldl (fun a fi => setLS a fi.name (fi.current_size, now)) ls

/-- How one `monitor_download_progress` iteration ends when it ends: the
`return True` under `active_downloads == 0 and completed_files`, or an
exception propagating out of `get_download_status`. -/
inductive MRes where
  | ret (b : Bool)
  | raisedM
deriving DecidableEq

/-- `FileDownloader.monitor_download_progress` (`check_interval` seconds
between checks): the `while True` loop, fuel-indexed; the outcome carries
the time of return and the next unread stream index. `none` means the loop
has not returned within `fuel` iterations. -/
def monitor_download_progress (stream : ℕ → Option (List Entry)) (check_interval : Int) :
    ℕ → LastSizes → ℕ → Int → Option (MRes × Int × ℕ)
  | 0, _, _, _ => none
  | fuel + 1, last_sizes, tick, now =>
      match get_download_status (stream tick) with
      | .error _ => some (.raisedM, now, tick + 1)
      | .ok st =>
          if st.active_downloads = 0 then
            if st.completed_files.isEmpty then
              monitor_download_progress stream check_interval fuel last_sizes (tick + 1)
                (now + check_interval)
            else some (.ret true, now, tick + 1)
          else
            monitor_download_progress stream check_interval fuel
              (updateSizes last_sizes st.in_progress_files now) (tick + 1)
              (now + check_interval)

/-- How the detailed branch of `wait_for_download_completion` ends: the
immediate `return True` (completed files and no active download), the
`return True` after `monitor_download_progress` comes back, the fall
through `return False` once the timeout has elapsed, or a propagated
exception. -/
inductive DRes where
  | completedD
  | monitoredD
  | timeoutReached
  | raisedD
deriving DecidableEq

/-- `FileDownloader.wait_for_download_completion` with
`detailed_monitoring=True`: poll every 5 seconds while the elapsed time is
below `timeout`; on completed files with no active download return `True`;
on any active download hand over to `monitor_download_progress` (default
`check_interval=5`) and return `True` when it does; past the timeout
return `False` (`Download timeout reached`). Fuel-indexed; the outcome
carries the time of return and the next unread stream index. -/
def wait_for_download_completion (stream : ℕ → Option (List Entry)) (timeout : Int) :
    ℕ → ℕ → Int → Option (DRes × Int × ℕ)
  | 0, _, _ => none
  | fuel + 1, tick, now =>
      if now < timeout then
        match get_download_status (stream tick) with
        | .error _ => some (.raisedD, now, tick + 1)
        | .ok st =>
            if st.active_downloads = 0 then
              if st.completed_files.isEmpty then
                wait_for_download_completion stream timeout fuel (tick + 1) (now + 5)
              else some (.completedD, now, tick + 1)
            else
              match monitor_download_progress stream 5 fuel [] (tick + 1) now with
              | none => none
              | some (.ret _, t, k) => some (.monitoredD, t, k)
              | some (.raisedM, t, k) => some (.raisedD, t, k)
      else some (.timeoutReached, now, tick)

/-- How the simple branch of `wait_for_download_completion` ends: `True`
when no `.crdownload` file is listed, `False` once the timeout has
elapsed, or `os.listdir` raising on a missing directory. -/
inductive SRes where
  | completedS
  | timeoutS
  | raisedS
deriving DecidableEq

/-- `FileDownloader.wait_for_download_completion` with
`detailed_monitoring=False`: while the elapsed time is below `timeout`,
list the directory; if it holds no `.crdownload` file return `True`, else
sleep 10 seconds and retry; past the timeout return `False`. -/
def wait_simple (stream : ℕ → Option (List Entry)) (timeout : Int) :
    ℕ → ℕ → Int → Option (SRes × Int × ℕ)
  | 0, _, _ => none
  | fuel + 1, tick, now =>
      if now < timeout then
        match stream tick with
        | none => some (.raisedS, now, tick + 1)
        | some entries =>
            if (entries.filter fun e => endsCr e.name).isEmpty then
              some (.completedS, now, tick + 1)
            else wait_simple stream timeout fuel (tick + 1) (now + 10)
      else some (.timeoutS, now, tick)

/-- The size an entry's successful `os.path.getsize` returned (0 for a
failing one; only used where the read is known to succeed). -/
def okSize (e : Entry) : Int :=
  match e.size with
  | .ok z => z
  | .error _ => 0

/-- Whether an entry is classified as a Chrome in-progress file. -/
def isCrE (e : Entry) : Bool := endsCr e.name

/-- Whether an entry is classified as a completed regular file. -/
def isComplE (e : Entry) : Bool := !endsCr e.name && e.isFile

/-- The in-progress record `get_download_status` builds for an entry. -/
def mkIP (e : Entry) : InProgressFile := ⟨stripCr e.name, e.name, okSize e⟩

/-- The completed record `get_download_status` builds for an entry. -/
def mkCF (e : Entry) : CompletedFile := ⟨e.name, okSize e⟩

/-- Internal consistency of a status dict: the active count matches the
in-progress list, the total size is the sum of all listed sizes, and the
directory entries backing the two lists are marked/unmarked respectively. -/
def statusInv (st : DownloadStatus) : Prop :=
  st.active_downloads = st.in_progress_files.length ∧
  st.total_size = (st.in_progress_files.map InProgressFile.current_size).sum +
    (st.completed_files.map CompletedFile.size).sum ∧
  (∀ p ∈ st.in_progress_files, endsCr p.temp_file = true) ∧
  (∀ c ∈ st.completed_files, endsCr c.name = false)

/-- The debugging screenshot `download_file` saves into the download
directory before clicking the download button. -/
def pngEntry : Entry := ⟨"before_download.png".toList, true, .ok 100⟩

/-- A perpetually in-progress Chrome download file. -/
def barCrEntry : Entry := ⟨"bar.crdownload".toList, true, .ok 5⟩

/-- An in-progress file whose completed twin is also present. -/
def fooCrEntry : Entry := ⟨"foo.crdownload".toList, true, .ok 10⟩

/-- A completed regular file named like `fooCrEntry`'s logical name. -/
def fooEntry : Entry := ⟨"foo".toList, true, .ok 20⟩

/-- An in-progress file whose size read raises an `OSError`. -/
def badEntry : Entry := ⟨"a.crdownload".toList, true, .error ()⟩

/-- A directory that exists but never gains any file. -/
def emptyStream : ℕ → Option (List Entry) := fun _ => some []

/-- A directory holding only the pre-existing debugging screenshot. -/
def pngStream : ℕ → Option (List Entry) := fun _ => some [pngEntry]

/-- A directory in which `bar.crdownload` stays in progress forever. -/
def barStream : ℕ → Option (List Entry) := fun _ => some [barCrEntry]

lemma stripCr_append (p : FName) : stripCr (p ++ crSuffix) = p := by
  have hlen : crSuffix.length = 11 := by decide
  simp [stripCr, hlen, List.take_left']

lemma statusFold_char (es : List Entry) :
    ∀ st : DownloadStatus, (∀ e ∈ es, ∃ z, e.size = Except.ok z) →
    statusFold st es = Except.ok
      { active_downloads := st.active_downloads + (es.filter isCrE).length,
        completed_files := st.completed_files ++ (es.filter isComplE).map mkCF,
        in_progress_files := st.in_progress_files ++ (es.filter isCrE).map mkIP,
        total_size := st.total_size +
          ((es.filter fun x => isCrE x || isComplE x).map okSize).sum } := by
  induction es with
  | nil => intro st _; simp [statusFold]
  | cons e es ih =>
      intro st h
      obtain ⟨z, hz⟩ := h e (by simp)
      have hrest : ∀ x ∈ es, ∃ w, x.size = Except.ok w := fun x hx => h x (by simp [hx])
      have hok : okSize e = z := by simp [okSize, hz]
      by_cases hcr : endsCr e.name
      · rw [statusFold]
        have hstep : statusStep st e = Except.ok
            { st with
              in_progress_files := st.in_progress_files ++ [⟨stripCr e.name, e.name, z⟩],
              active_downloads := st.active_downloads + 1,
              total_size := st.total_size + z } := by
          simp [statusStep, hcr, hz]
        rw [hstep]
        dsimp only
        rw [ih _ hrest]
        simp [List.filter_cons, isCrE, isComplE, hcr, mkIP, hok, List.append_assoc] <;> omega
      · by_cases hf : e.isFile
        · rw [statusFold]
          have hstep : statusStep st e = Except.ok
              { st with
                completed_files := st.completed_files ++ [⟨e.name, z⟩],
                total_size := st.total_size + z } := by
            simp [statusStep, hcr, hf, hz]
          rw [hstep]
          dsimp only
          rw [ih _ hrest]
          simp [List.filter_cons, isCrE, isComplE, hcr, hf, mkCF, hok, List.append_assoc] <;> omega
        · rw [statusFold]
          have hstep : statusStep st e = Except.ok st := by
            simp [statusStep, hcr, hf]
          rw [hstep]
          dsimp only
          rw [ih _ hrest]
          simp [List.filter_cons, isCrE, isComplE, hcr, hf]

lemma statusStep_inv {st st' : DownloadStatus} {e : Entry}
    (h : statusStep st e = Except.ok st') (hinv : statusInv st) : statusInv st' := by
  obtain ⟨h1, h2, h3, h4⟩ := hinv
  unfold statusStep at h
  split at h
  · rename_i hcr
    split at h
    · exact Except.noConfusion h
    · rename_i z hz
      injection h with h
      subst h
      refine ⟨?_, ?_, ?_, ?_⟩
      · simp [h1]
      · simp [h2]; omega
      · intro p hp
        rcases List.mem_append.1 hp with hp | hp
        · exact h3 p hp
        · simp at hp; subst hp; exact hcr
      · exact h4
  · rename_i hcr
    split at h
    · split at h
      · exact Except.noConfusion h
      · rename_i hf z hz
        injection h with h
        subst h
        refine ⟨h1, ?_, h3, ?_⟩
        · simp [h2]; omega
        · intro c hc
          rcases List.mem_append.1 hc with hc | hc
          · exact h4 c hc
          · simp at hc; subst hc; simpa using hcr
    · injection h with h
      subst h
      exact ⟨h1, h2, h3, h4⟩

lemma statusFold_inv : ∀ (es : List Entry) (st st' : DownloadStatus),
    statusFold st es = Except.ok st' → statusInv st → statusInv st' := by
  intro es
  induction es with
  | nil =>
      intro st st' h hinv
      injection h with h
      subst h
      exact hinv
  | cons e es ih =>
      intro st st' h hinv
      rw [statusFold] at h
      cases hstep : statusStep st e with
      | error u => rw [hstep] at h; exact Except.noConfusion h
      | ok st2 =>
          rw [hstep] at h
          exact ih st2 st' h (statusStep_inv hstep hinv)

lemma statusStep_inprog_mono {st st' : DownloadStatus} {e : Entry}
    (h : statusStep st e = Except.ok st') :
    ∃ l, st'.in_progress_files = st.in_progress_files ++ l := by
  unfold statusStep at h
  split at h
  · split at h
    · exact Except.noConfusion h
    · injection h with h; subst h; exact ⟨_, rfl⟩
  · split at h
    · split at h
      · exact Except.noConfusion h
      · injection h with h; subst h; exact ⟨[], by simp⟩
    · injection h with h; subst h; exact ⟨[], by simp⟩

lemma statusFold_inprog_mono : ∀ (es : List Entry) (st st' : DownloadStatus),
    statusFold st es = Except.ok st' →
    ∃ l, st'.in_progress_files = st.in_progress_files ++ l := by
  intro es
  induction es with
  | nil => intro st st' h; injection h with h; subst h; exact ⟨[], by simp⟩
  | cons e es ih =>
      intro st st' h
      rw [statusFold] at h
      cases hstep : statusStep st e with
      | error u => rw [hstep] at h; exact Except.noConfusion h
      | ok st2 =>
          rw [hstep] at h
          obtain ⟨l1, hl1⟩ := statusStep_inprog_mono hstep
          obtain ⟨l2, hl2⟩ := ih st2 st' h
          exact ⟨l1 ++ l2, by rw [hl2, hl1, List.append_assoc]⟩

lemma statusFold_mem_inprog : ∀ (es : List Entry) (st st' : DownloadStatus),
    statusFold st es = Except.ok st' →
    ∀ e ∈ es, endsCr e.name = true →
    stripCr e.name ∈ st'.in_progress_files.map InProgressFile.name := by
  intro es
  induction es with
  | nil => intro st st' _ e he; exact absurd he (List.not_mem_nil e)
  | cons a es ih =>
      intro st st' h e he hcr
      rw [statusFold] at h
      cases hstep : statusStep st a with
      | error u => rw [hstep] at h; exact Except.noConfusion h
      | ok st2 =>
          rw [hstep] at h
          rcases List.mem_cons.1 he with he | he
          · subst he
            obtain ⟨l2, hl2⟩ := statusFold_inprog_mono es st2 st' h
            unfold statusStep at hstep
            rw [if_pos hcr] at hstep
            cases hz : e.size with
            | error u => rw [hz] at hstep; exact Except.noConfusion hstep
            | ok z =>
                rw [hz] at hstep
                injection hstep with hstep
                subst hstep
                rw [hl2]
                simp
          · exact ih st2 st' h e he hcr

lemma lookupLS_setLS_self : ∀ (ls : LastSizes) (f : FName) (v : Int × Int),
    lookupLS (setLS ls f v) f = some v := by
  intro ls f v
  induction ls with
  | nil => simp [setLS, lookupLS]
  | cons kv rest ih =>
      obtain ⟨k, w⟩ := kv
      by_cases hk : k = f
      · simp [setLS, hk, lookupLS]
      · simp [setLS, hk, lookupLS, ih]

lemma monitor_none (stream : ℕ → Option (List Entry)) (ci : Int)
    (h : ∀ n, ∃ st, get_download_status (stream n) = Except.ok st ∧
        (st.active_downloads ≠ 0 ∨ st.completed_files.isEmpty = true)) :
    ∀ (fuel : ℕ) (ls : LastSizes) (tick : ℕ) (now : Int),
      monitor_download_progress stream ci fuel ls tick now = none := by
  intro fuel
  induction fuel with
  | zero => intro ls tick now; rfl
  | succ n ih =>
      intro ls tick now
      obtain ⟨st, heq, hcase⟩ := h tick
      rw [monitor_download_progress, heq]
      by_cases ha : st.active_downloads = 0
      · have hemp : st.completed_files.isEmpty = true := by
          rcases hcase with hc | hc
          · exact absurd ha hc
          · exact hc
        simp [ha, hemp, ih]
      · simp [ha, ih]

lemma monitor_ret (stream : ℕ → Option (List Entry)) (ci : Int) :
    ∀ (fuel : ℕ) (ls : LastSizes) (tick : ℕ) (now : Int) (b : Bool) (t : Int) (k : ℕ),
      monitor_download_progress stream ci fuel ls tick now = some (MRes.ret b, t, k) →
      b = true ∧ ∃ j st, get_download_status (stream j) = Except.ok st ∧
        st.active_downloads = 0 ∧ st.completed_files ≠ [] := by
  intro fuel
  induction fuel with
  | zero => intro ls tick now b t k h; exact Option.noConfusion h
  | succ n ih =>
      intro ls tick now b t k h
      rw [monitor_download_progress] at h
      cases hs : get_download_status (stream tick) with
      | error u =>
          rw [hs] at h
          simp at h
      | ok st =>
          rw [hs] at h
          dsimp only at h
          by_cases ha : st.active_downloads = 0
          · by_cases hemp : st.completed_files.isEmpty
            · rw [if_pos ha, if_pos hemp] at h
              exact ih ls (tick + 1) (now + ci) b t k h
            · rw [if_pos ha, if_neg hemp] at h
              simp at h
              refine ⟨h.1, tick, st, hs, ha, ?_⟩
              simpa [List.isEmpty_iff] using hemp
          · rw [if_neg ha] at h
            exact ih _ (tick + 1) (now + ci) b t k h

lemma waitD_quiet_status (stream : ℕ → Option (List Entry))
    (hs : ∀ n, stream n = some [] ∨ stream n = none) :
    ∀ n, get_download_status (stream n) = Except.ok emptyStatus := by
  intro n
  rcases hs n with h | h <;> simp [h, get_download_status, statusFold]

lemma waitD_quiet_result (stream : ℕ → Option (List Entry)) (timeout : Int)
    (hs : ∀ n, stream n = some [] ∨ stream n = none) :
    ∀ (fuel : ℕ) (tick : ℕ) (now : Int) (out : DRes × Int × ℕ),
      wait_for_download_completion stream timeout fuel tick now = some out →
      out.1 = DRes.timeoutReached ∧ timeout ≤ out.2.1 := by
  have hst := waitD_quiet_status stream hs
  intro fuel
  induction fuel with
  | zero => intro tick now out h; exact Option.noConfusion h
  | succ n ih =>
      intro tick now out h
      rw [wait_for_download_completion] at h
      by_cases hlt : now < timeout
      · rw [if_pos hlt, hst tick] at h
        dsimp only at h
        have hact : emptyStatus.active_downloads = 0 := rfl
        have hemp : emptyStatus.completed_files.isEmpty = true := rfl
        rw [if_pos hact, if_pos hemp] at h
        exact ih (tick + 1) (now + 5) out h
      · rw [if_neg hlt] at h
        injection h with h
        subst h
        exact ⟨rfl, le_of_not_lt hlt⟩

lemma waitD_quiet_terminates (stream : ℕ → Option (List Entry)) (timeout : Int)
    (hs : ∀ n, stream n = some [] ∨ stream n = none) :
    ∀ (fuel : ℕ) (tick : ℕ) (now : Int), timeout ≤ now + 5 * (fuel : Int) →
      ∃ t k, wait_for_download_completion stream timeout (fuel + 1) tick now =
        some (DRes.timeoutReached, t, k) ∧ timeout ≤ t := by
  have hst := waitD_quiet_status stream hs
  intro fuel
  induction fuel with
  | zero =>
      intro tick now hle
      simp at hle
      refine ⟨now, tick, ?_, hle⟩
      rw [wait_for_download_completion, if_neg (not_lt.2 hle)]
  | succ n ih =>
      intro tick now hle
      by_cases hlt : now < timeout
      · have hle2 : timeout ≤ (now + 5) + 5 * (n : Int) := by
          push_cast at hle ⊢
          omega
        obtain ⟨t, k, hw, hts⟩ := ih (tick + 1) (now + 5) hle2
        refine ⟨t, k, ?_, hts⟩
        rw [wait_for_download_completion, if_pos hlt, hst tick]
        dsimp only
        have hact : emptyStatus.active_downloads = 0 := rfl
        have hemp : emptyStatus.completed_files.isEmpty = true := rfl
        rw [if_pos hact, if_pos hemp]
        exact hw
      · refine ⟨now, tick, ?_, le_of_not_lt hlt⟩
        rw [wait_for_download_completion, if_neg hlt]

lemma statusFold_err : ∀ (es : List Entry) (st : DownloadStatus) (e : Entry),
    e ∈ es →
    (endsCr e.name = true ∨ (endsCr e.name = false ∧ e.isFile = true)) →
    e.size = Except.error () →
    statusFold st es = Except.error () := by
  intro es
  induction es with
  | nil => intro st e he; exact absurd he (List.not_mem_nil e)
  | cons a es ih =>
      intro st e he hrel herr
      rw [statusFold]
      rcases List.mem_cons.1 he with he | he
      · subst he
        have hstep : statusStep st e = Except.error () := by
          unfold statusStep
          rcases hrel with hcr | ⟨hcr, hf⟩
          · rw [if_pos hcr, herr]
          · rw [if_neg (by simp [hcr]), if_pos hf, herr]
        rw [hstep]
      · cases hstep : statusStep st a with
        | error u => cases u; rfl
        | ok st2 => exact ih st2 e he hrel herr

/-- Claim C1 (code bug): the claim that the monitor never keeps running
unboundedly past the timeout while a transfer is in progress fails on the
code. With `bar.crdownload` perpetually present, `monitor_download_progress`
never returns for any amount of fuel, and `wait_for_download_completion`
(timeout 3600) hands over to it on its first tick and therefore never
returns either — no `TimedOut` result is ever produced, contradicting the
function's own `timeout` contract (`Maximum time to wait in seconds`). -/
theorem timeout_unbounded_with_active_transfer :
    (∀ (fuel : ℕ) (ls : LastSizes) (tick : ℕ) (now : Int),
        monitor_download_progress barStream 5 fuel ls tick now = none) ∧
    (∀ fuel : ℕ, wait_for_download_completion barStream 3600 fuel 0 0 = none) := by
  have hb : ∀ n, ∃ st, get_download_status (barStream n) = Except.ok st ∧
      (st.active_downloads ≠ 0 ∨ st.completed_files.isEmpty = true) := by
    intro n
    refine ⟨⟨1, [], [⟨"bar".toList, "bar.crdownload".toList, 5⟩], 5⟩, ?_, Or.inl (by decide)⟩
    show get_download_status (some [barCrEntry]) =
      Except.ok ⟨1, [], [⟨"bar".toList, "bar.crdownload".toList, 5⟩], 5⟩
    decide
  have hm := monitor_none barStream 5 hb
  refine ⟨hm, ?_⟩
  intro fuel
  cases fuel with
  | zero => rfl
  | succ n =>
      have hst : get_download_status (barStream 0) =
          Except.ok ⟨1, [], [⟨"bar".toList, "bar.crdownload".toList, 5⟩], 5⟩ := by decide
      rw [wait_for_download_completion, if_pos (by norm_num : (0:ℤ) < 3600), hst]
      dsimp only
      rw [if_neg (by decide : ¬ ((1:ℕ) = 0)), hm n [] 1 0]

/-- Claim C2 (code bug): the claim that `Completed` requires at least one
observed transfer fails on the code. A directory holding only the
pre-existing debugging screenshot (written there by `download_file`
itself), with no `.crdownload` file in any tick, makes
`wait_for_download_completion` return `True` (`Download completed!`) on its
very first poll, at elapsed time 0, far before the 3600-second timeout. -/
theorem completed_on_preexisting_file :
    wait_for_download_completion pngStream 3600 5 0 0 = some (DRes.completedD, 0, 1) ∧
    (∀ n, pngStream n = some [pngEntry]) ∧
    endsCr pngEntry.name = false ∧ (0:ℤ) < 3600 :=
  ⟨by decide, fun _ => rfl, by decide, by decide⟩

/-- Claim C3 counterexample: with `detailed_monitoring=False`, a run in
which the directory never gains any file is reported completed (`True`,
`Download completed!`) on the very first tick, at elapsed time 0, long
before the 3600-second timeout — refuting the claim that every such run
yields the `NoActivity` result at or after the timeout. -/
theorem noActivity_claim_counterexample :
    wait_simple emptyStream 3600 3 0 0 = some (SRes.completedS, 0, 1) ∧ (0:ℤ) < 3600 :=
  ⟨by decide, by decide⟩

/-- Claim C3 as amended: restricted to the default detailed-monitoring
branch the claim holds — on a run whose snapshots are always empty (or the
directory is gone), any value `wait_for_download_completion` returns is the
timeout fall-through (`False`, never `Completed`) at a time no earlier than
the timeout, and enough fuel makes it return. -/
theorem noActivity_detailed_quiet_run (stream : ℕ → Option (List Entry)) (timeout : Int)
    (hs : ∀ n, stream n = some [] ∨ stream n = none) :
    (∀ (fuel tick : ℕ) (now : Int) (out : DRes × Int × ℕ),
        wait_for_download_completion stream timeout fuel tick now = some out →
        out.1 = DRes.timeoutReached ∧ timeout ≤ out.2.1) ∧
    (∀ (fuel tick : ℕ) (now : Int), timeout ≤ now + 5 * (fuel : Int) →
        ∃ t k, wait_for_download_completion stream timeout (fuel + 1) tick now =
          some (DRes.timeoutReached, t, k) ∧ timeout ≤ t) :=
  ⟨waitD_quiet_result stream timeout hs, waitD_quiet_terminates stream timeout hs⟩

/-- Witness for the amended C3 claim on a concrete quiet run: with timeout
12 the detailed wait returns the timeout result at time 15 ≥ 12. -/
theorem noActivity_detailed_quiet_run_witness :
    wait_for_download_completion emptyStream 12 4 0 0 =
      some (DRes.timeoutReached, 15, 3) ∧ (12:ℤ) ≤ 15 :=
  ⟨by decide,
    ((noActivity_detailed_quiet_run emptyStream 12 (fun _ => Or.inl rfl)).1 4 0 0
      (DRes.timeoutReached, 15, 3) (by decide)).2⟩

/-- Claim C7 counterexample: starting the wait with `timeout = 0` does not
fail with any configuration error — it returns the ordinary timeout result
(`False`) with zero snapshots taken (final stream index still 0). -/
theorem invalid_configuration_counterexample :
    wait_for_download_completion emptyStream 0 3 0 0 =
      some (DRes.timeoutReached, 0, 0) := by decide

/-- Claim C7 as amended: no configuration validation exists anywhere; with
any `timeout ≤ 0` the detailed wait immediately returns the normal timeout
result, before any snapshot is taken, instead of raising an
`InvalidConfiguration` error; the poll interval is never checked at all. -/
theorem no_configuration_validation (stream : ℕ → Option (List Entry))
    (timeout : Int) (fuel : ℕ) (h : timeout ≤ 0) :
    wait_for_download_completion stream timeout (fuel + 1) 0 0 =
      some (DRes.timeoutReached, 0, 0) := by
  rw [wait_for_download_completion, if_neg (not_lt.2 h)]

/-- Witness for the amended C7 claim at the concrete timeout -7. -/
theorem no_configuration_validation_witness :
    wait_for_download_completion emptyStream (-7) 3 0 0 =
      some (DRes.timeoutReached, 0, 0) :=
  no_configuration_validation emptyStream (-7) 2 (by norm_num)

/-- Claim C4 counterexample: when `foo.crdownload` and a same-named
complete file `foo` coexist in one snapshot, the logical name `foo` is
listed in BOTH the in-progress and the completed set of the returned
status, refuting the claim that a known transfer is in exactly one of the
two sets at any time. -/
theorem record_sets_counterexample :
    get_download_status (some [fooCrEntry, fooEntry]) = Except.ok
      { active_downloads := 1,
        completed_files := [⟨"foo".toList, 20⟩],
        in_progress_files := [⟨"foo".toList, "foo.crdownload".toList, 10⟩],
        total_size := 30 } ∧
    "foo".toList ∈
      ([⟨"foo".toList, "foo.crdownload".toList, 10⟩] : List InProgressFile).map
        InProgressFile.name ∧
    "foo".toList ∈ ([⟨"foo".toList, 20⟩] : List CompletedFile).map CompletedFile.name :=
  ⟨by decide, by decide, by decide⟩

/-- Claim C4 as amended: the monitor keeps no cross-tick record state at
all — each tick's status is a pure function of that tick's snapshot, whose
in-progress identities are exactly the stripped names of the `.crdownload`
entries and whose completed identities are exactly the names of the other
regular files; identities vanish with their files, and a name appears in
both sets whenever a partial and a same-named complete file coexist. -/
theorem status_pure_per_tick (entries : List Entry)
    (h : ∀ e ∈ entries, ∃ z, e.size = Except.ok z) :
    ∃ st, get_download_status (some entries) = Except.ok st ∧
      st.in_progress_files.map InProgressFile.name =
        (entries.filter isCrE).map (fun e => stripCr e.name) ∧
      st.completed_files.map CompletedFile.name =
        (entries.filter isComplE).map (fun e => e.name) := by
  have hc := statusFold_char entries emptyStatus h
  refine ⟨_, by rw [get_download_status]; exact hc, ?_, ?_⟩
  · simp [emptyStatus, mkIP]
  · simp [emptyStatus, mkCF]

/-- Witness for the amended C4 claim on the two-file snapshot. -/
theorem status_pure_per_tick_witness :
    ∃ st, get_download_status (some [fooCrEntry, fooEntry]) = Except.ok st ∧
      st.in_progress_files.map InProgressFile.name =
        (([fooCrEntry, fooEntry] : List Entry).filter isCrE).map (fun e => stripCr e.name) ∧
      st.completed_files.map CompletedFile.name =
        (([fooCrEntry, fooEntry] : List Entry).filter isComplE).map (fun e => e.name) :=
  status_pure_per_tick [fooCrEntry, fooEntry] (by
    intro e he
    simp [fooCrEntry, fooEntry] at he
    rcases he with he | he <;> subst he
    · exact ⟨10, rfl⟩
    · exact ⟨20, rfl⟩)

/-- Claim C5: the per-tick rate for an in-progress file with a prior
sample equals the size delta divided by the elapsed time since the sample;
the first sample yields no throughput (`Starting...`, rate estimate 0);
re-feeding the identical size later yields rate exactly 0; and a file
whose `.crdownload` entry is present in a snapshot is classified
in-progress in that snapshot's status regardless of any history, so an
unchanged snapshot never flips a record from in-progress to completed. -/
theorem rate_computation_correct :
    (∀ (ls : LastSizes) (f : FName) (sz t cur now : Int),
        lookupLS ls f = some (sz, t) → 0 < now - t →
        speedMsg ls f cur now =
          SpeedMsg.speed (((cur - sz : Int) : ℚ) / ((now - t : Int) : ℚ))) ∧
    (∀ (f : FName) (cur now : Int),
        speedMsg [] f cur now = SpeedMsg.starting ∧
        rateValue (speedMsg [] f cur now) = 0) ∧
    (∀ (ls : LastSizes) (f : FName) (s t1 t2 : Int), t1 < t2 →
        speedMsg (setLS ls f (s, t1)) f s t2 = SpeedMsg.speed 0) ∧
    (∀ (entries : List Entry) (st : DownloadStatus) (e : Entry),
        get_download_status (some entries) = Except.ok st →
        e ∈ entries → endsCr e.name = true →
        stripCr e.name ∈ st.in_progress_files.map InProgressFile.name) := by
  refine ⟨?_, ?_, ?_, ?_⟩
  · intro ls f sz t cur now hl hpos
    rw [speedMsg, hl]
    dsimp only
    rw [if_pos hpos]
  · intro f cur now
    exact ⟨rfl, rfl⟩
  · intro ls f s t1 t2 hlt
    rw [speedMsg, lookupLS_setLS_self]
    dsimp only
    rw [if_pos (by omega : (0:ℤ) < t2 - t1)]
    norm_num
  · intro entries st e h hmem hcr
    rw [get_download_status] at h
    exact statusFold_mem_inprog entries emptyStatus st h e hmem hcr

/-- Witness for C5 at concrete samples: a prior sample of 20 bytes at time
2 and a current size of 50 at time 7 gives rate 6 bytes/second, and the
identical 50-byte sample repeated at a later time gives rate 0. -/
theorem rate_computation_correct_witness :
    speedMsg (setLS [] "a".toList (20, 2)) "a".toList 50 7 = SpeedMsg.speed 6 ∧
    speedMsg (setLS [] "a".toList (50, 2)) "a".toList 50 7 = SpeedMsg.speed 0 ∧
    stripCr fooCrEntry.name ∈
      ([⟨"foo".toList, "foo.crdownload".toList, 10⟩] : List InProgressFile).map
        InProgressFile.name := by
  refine ⟨?_, ?_, ?_⟩
  · have h := rate_computation_correct.1 (setLS [] "a".toList (20, 2)) "a".toList
      20 2 50 7 (by decide) (by norm_num)
    rw [h]
    norm_num
  · exact rate_computation_correct.2.2.1 [] "a".toList 50 2 7 (by norm_num)
  · exact (rate_computation_correct.2.2.2 [fooCrEntry, fooEntry]
      ⟨1, [⟨"foo".toList, 20⟩], [⟨"foo".toList, "foo.crdownload".toList, 10⟩], 30⟩
      fooCrEntry (by decide) (by simp) (by decide))

/-- Claim C6 counterexample: a failing size read on a single `.crdownload`
entry makes `get_download_status` itself raise (return the error), rather
than skip the entry — refuting the claim that a per-entry read failure
never propagates out of the status-taking operation. -/
theorem entry_read_failure_counterexample :
    get_download_status (some [badEntry]) = Except.error () := by decide

/-- Claim C6 as amended: there is no per-entry error handling — an
`OSError` from the size read of any entry whose size the scan reads (a
`.crdownload` entry, or a regular non-partial file) propagates out of
`get_download_status`, and through it aborts the monitoring loop with the
exception rather than with a normal result. -/
theorem entry_read_failure_propagates (entries : List Entry) (e : Entry)
    (hmem : e ∈ entries)
    (hrel : endsCr e.name = true ∨ (endsCr e.name = false ∧ e.isFile = true))
    (herr : e.size = Except.error ()) :
    get_download_status (some entries) = Except.error () ∧
    (∀ (stream : ℕ → Option (List Entry)) (ci : Int) (fuel : ℕ) (ls : LastSizes)
        (tick : ℕ) (now : Int), stream tick = some entries →
        monitor_download_progress stream ci (fuel + 1) ls tick now =
          some (MRes.raisedM, now, tick + 1)) := by
  have h := statusFold_err entries emptyStatus e hmem hrel herr
  have hg : get_download_status (some entries) = Except.error () := by
    rw [get_download_status]; exact h
  refine ⟨hg, ?_⟩
  intro stream ci fuel ls tick now hstream
  have hge : get_download_status (stream tick) = Except.error () := by
    rw [hstream]; exact hg
  rw [monitor_download_progress, hge]

/-- Witness for the amended C6 claim on the one-entry failing snapshot. -/
theorem entry_read_failure_propagates_witness :
    get_download_status (some [badEntry]) = Except.error () ∧
    monitor_download_progress (fun _ => some [badEntry]) 5 1 [] 0 0 =
      some (MRes.raisedM, 0, 1) := by
  have h := entry_read_failure_propagates [badEntry] badEntry (by simp)
    (Or.inl (by decide)) rfl
  exact ⟨h.1, h.2 (fun _ => some [badEntry]) 5 0 [] 0 0 rfl⟩

/-- Claim C8: an entry whose name ends with `.crdownload` is classified in
progress under its name with exactly that suffix removed (`filename[:-11]`
strips precisely the 11-character suffix), and any other regular file is
classified completed under its own name. -/
theorem crdownload_classification_correct :
    (∀ p : FName, stripCr (p ++ crSuffix) = p) ∧
    (∀ (st : DownloadStatus) (e : Entry) (z : Int),
        endsCr e.name = true → e.size = Except.ok z →
        statusStep st e = Except.ok
          { st with
            in_progress_files := st.in_progress_files ++ [⟨stripCr e.name, e.name, z⟩],
            active_downloads := st.active_downloads + 1,
            total_size := st.total_size + z }) ∧
    (∀ (st : DownloadStatus) (e : Entry) (z : Int),
        endsCr e.name = false → e.isFile = true → e.size = Except.ok z →
        statusStep st e = Except.ok
          { st with
            completed_files := st.completed_files ++ [⟨e.name, z⟩],
            total_size := st.total_size + z }) := by
  refine ⟨stripCr_append, ?_, ?_⟩
  · intro st e z hcr hz
    simp [statusStep, hcr, hz]
  · intro st e z hcr hf hz
    simp [statusStep, hcr, hf, hz]

/-- Witness for C8 at the concrete entries: `foo.crdownload` yields the
logical name `foo`, and the regular file `foo` is completed as itself. -/
theorem crdownload_classification_correct_witness :
    stripCr ("foo".toList ++ crSuffix) = "foo".toList ∧
    statusStep emptyStatus fooCrEntry = Except.ok
      ⟨1, [], [⟨"foo".toList, "foo.crdownload".toList, 10⟩], 10⟩ ∧
    statusStep emptyStatus fooEntry = Except.ok ⟨0, [⟨"foo".toList, 20⟩], [], 20⟩ := by
  refine ⟨crdownload_classification_correct.1 "foo".toList, ?_, ?_⟩
  · have h := crdownload_classification_correct.2.1 emptyStatus fooCrEntry 10
      (by decide) rfl
    simpa using h
  · have h := crdownload_classification_correct.2.2 emptyStatus fooEntry 20
      (by decide) rfl rfl
    simpa using h

/-- Claim C9: every status `get_download_status` returns is internally
consistent — `active_downloads` equals the length of `in_progress_files`,
the directory entry behind an in-progress record (its `.crdownload` temp
file) never also appears as a completed file name, and `total_size` is the
sum of all listed sizes; a missing directory yields the empty status, not
an error. -/
theorem status_internally_consistent :
    (∀ (entries : List Entry) (st : DownloadStatus),
        get_download_status (some entries) = Except.ok st →
        st.active_downloads = st.in_progress_files.length ∧
        st.total_size = (st.in_progress_files.map InProgressFile.current_size).sum +
          (st.completed_files.map CompletedFile.size).sum ∧
        ∀ f, f ∈ st.in_progress_files.map InProgressFile.temp_file →
          f ∉ st.completed_files.map CompletedFile.name) ∧
    get_download_status none = Except.ok emptyStatus ∧
    emptyStatus.active_downloads = 0 ∧ emptyStatus.completed_files = [] ∧
    emptyStatus.in_progress_files = [] ∧ emptyStatus.total_size = 0 := by
  refine ⟨?_, rfl, rfl, rfl, rfl, rfl⟩
  intro entries st h
  rw [get_download_status] at h
  have hbase : statusInv emptyStatus := by
    refine ⟨rfl, by simp [emptyStatus], ?_, ?_⟩ <;> intro x hx <;>
      exact absurd hx (List.not_mem_nil x)
  obtain ⟨h1, h2, h3, h4⟩ := statusFold_inv entries emptyStatus st h hbase
  refine ⟨h1, h2, ?_⟩
  intro f hf hc
  simp only [List.mem_map] at hf hc
  obtain ⟨p, hp, hpf⟩ := hf
  obtain ⟨c, hc2, hcf⟩ := hc
  have hpt := h3 p hp
  have hct := h4 c hc2
  rw [hpf] at hpt
  rw [hcf] at hct
  rw [hpt] at hct
  exact Bool.noConfusion hct

/-- Witness for C9 on the two-file snapshot: the active count matches the
in-progress list and the temp file name is not among completed names. -/
theorem status_internally_consistent_witness :
    (1 : Nat) =
      ([⟨"foo".toList, "foo.crdownload".toList, 10⟩] : List InProgressFile).length ∧
    "foo.crdownload".toList ∉
      ([⟨"foo".toList, 20⟩] : List CompletedFile).map CompletedFile.name := by
  have h := status_internally_consistent.1 [fooCrEntry, fooEntry]
    ⟨1, [⟨"foo".toList, 20⟩], [⟨"foo".toList, "foo.crdownload".toList, 10⟩], 30⟩
    (by decide)
  exact ⟨h.1, h.2.2 "foo.crdownload".toList (by decide)⟩

/-- Claim C10: `monitor_download_progress` returns a value only as `True`,
and only when some tick's status had zero active downloads together with a
non-empty completed list; and on any snapshot stream in which every tick
either shows at least one readable `.crdownload` file or shows no files at
all, the loop never returns for any amount of fuel — it has no timeout or
iteration bound of its own. -/
theorem monitor_return_and_divergence :
    (∀ (stream : ℕ → Option (List Entry)) (ci : Int) (fuel : ℕ) (ls : LastSizes)
        (tick : ℕ) (now : Int) (b : Bool) (t : Int) (k : ℕ),
        monitor_download_progress stream ci fuel ls tick now = some (MRes.ret b, t, k) →
        b = true ∧ ∃ j st, get_download_status (stream j) = Except.ok st ∧
          st.active_downloads = 0 ∧ st.completed_files ≠ []) ∧
    (∀ (stream : ℕ → Option (List Entry)) (ci : Int),
        (∀ n, (stream n = some [] ∨ stream n = none) ∨
          ∃ es, stream n = some es ∧ (∀ e ∈ es, ∃ z, e.size = Except.ok z) ∧
            ∃ e ∈ es, endsCr e.name = true) →
        ∀ (fuel : ℕ) (ls : LastSizes) (tick : ℕ) (now : Int),
          monitor_download_progress stream ci fuel ls tick now = none) := by
  constructor
  · intro stream ci fuel ls tick now b t k h
    exact monitor_ret stream ci fuel ls tick now b t k h
  · intro stream ci hgood
    apply monitor_none
    intro n
    rcases hgood n with hq | ⟨es, hes, hok, e, hmem, hcr⟩
    · refine ⟨emptyStatus, ?_, Or.inr rfl⟩
      rcases hq with hh | hh <;> simp [hh, get_download_status, statusFold]
    · have hc := statusFold_char es emptyStatus hok
      refine ⟨_, by rw [hes, get_download_status]; exact hc, Or.inl ?_⟩
      have hfmem : e ∈ es.filter isCrE := List.mem_filter.2 ⟨hmem, by simp [isCrE, hcr]⟩
      have hne : es.filter isCrE ≠ [] := List.ne_nil_of_mem hfmem
      intro h0
      have hlen : (es.filter isCrE).length = 0 := by
        simpa [emptyStatus] using h0
      exact hne (List.length_eq_zero.1 hlen)

/-- Witness for C10: the perpetually in-progress stream never lets the
monitor loop return within 4 iterations (and, by the theorem, within any
number). -/
theorem monitor_return_and_divergence_witness :
    monitor_download_progress barStream 5 4 [] 0 0 = none :=
  monitor_return_and_divergence.2 barStream 5
    (fun _ => Or.inr ⟨[barCrEntry], rfl, by
        intro e he
        simp at he
        subst he
        exact ⟨5, rfl⟩,
      barCrEntry, by simp, by decide⟩)
    4 [] 0 0

end Download
